import Mathlib

set_option maxHeartbeats 1000000
set_option maxRecDepth 8000

/-!
Shallow embedding of the spider-knowledge-base core: the local search engine
(relevance scoring, ranking, snippets, titles) and the export pipeline
(json / csv / markdown formats and the single-page filename), translated from
src/app/knowledge-base.tsx and the export-enabled variant of that component.

Modelling conventions: JavaScript strings are Lean strings (lists of unicode
scalar values), JavaScript numbers are exact naturals / rationals (the float
relevance m / n is modelled as the exact rational mkRat m n; for one query all
scores share the denominator, so the float comparisons of the sort agree with
the rational ones), and a thrown exception is Option.none.  Case folding and
character classes are modelled on the ASCII range, which is the range the
component manipulates.  Recursions that walk a suffix that is not an immediate
tail take an explicit fuel argument bounded by the input length, so that every
definition reduces inside the kernel.
-/

namespace SpiderKB

/-! Part 1: JavaScript string primitives used by the component. -/

/-- ASCII case folding of one character, embedding what
String.prototype.toLowerCase does on the ASCII range. -/
def lowerChar (c : Char) : Char :=
  if 65 ≤ c.toNat ∧ c.toNat ≤ 90 then Char.ofNat (c.toNat + 32) else c

/-- Lower-case a whole string (as a character list). -/
def lowerL (l : List Char) : List Char := l.map lowerChar

/-- Helper for collapseWS: the flag records whether the previous character was
part of a whitespace run that has already emitted its single space. -/
def collapseWSAux : Bool → List Char → List Char
  | _, [] => []
  | inRun, c :: rest =>
    if c.isWhitespace then
      if inRun then collapseWSAux true rest
      else ' ' :: collapseWSAux true rest
    else c :: collapseWSAux false rest

/-- Embedding of replace(/\s+/g, " "): every maximal whitespace run becomes a
single space. -/
def collapseWS (l : List Char) : List Char := collapseWSAux false l

/-- Split a whitespace-collapsed string at its whitespace characters, keeping
the empty pieces that a separator at either edge produces. -/
def splitSpAux : List Char → List Char → List (List Char)
  | acc, [] => [acc.reverse]
  | acc, c :: rest =>
    if c.isWhitespace then acc.reverse :: splitSpAux [] rest
    else splitSpAux (c :: acc) rest

/-- Embedding of str.split(/\s+/): splitting at maximal whitespace runs equals
collapsing each run to one space and then splitting at single separators.  A
leading or trailing run contributes an empty piece, exactly as in JavaScript,
and the result is never the empty list. -/
def jsSplitWS (l : List Char) : List (List Char) := splitSpAux [] (collapseWS l)

/-- Embedding of String.prototype.trim (whitespace stripped from both ends). -/
def jsTrim (l : List Char) : List Char :=
  ((l.dropWhile Char.isWhitespace).reverse.dropWhile Char.isWhitespace).reverse

/-- Embedding of String.prototype.indexOf restricted to a plain needle: the
least position where the needle occurs, if any. -/
def jsIndexOf (l pat : List Char) : Option Nat :=
  if pat.isPrefixOf l then some 0
  else match l with
    | [] => none
    | _ :: rest => (jsIndexOf rest pat).map (· + 1)

/-- Embedding of String.prototype.includes. -/
def jsIncludes (l pat : List Char) : Bool := (jsIndexOf l pat).isSome

/-! Part 2: data model.  The StoredPage record matches the schema the
component reads from the storage module: url, domain, content, status,
contentSize, timestamp (milliseconds since the epoch). -/

structure StoredPage where
  url : String
  domain : String
  content : String
  status : Nat
  contentSize : Nat
  timestamp : Nat
deriving DecidableEq

/-- Transient search result: a stored page annotated with its relevance. -/
structure SearchResult where
  page : StoredPage
  relevance : ℚ
deriving DecidableEq

/-! Part 3: the search engine, from the search closure of the component:

  if (!searchQuery.trim()) return;
  const lowerQuery = searchQuery.toLowerCase().split(/\s+/);
  ... const text = (page.content || "").toLowerCase();
      const matches = lowerQuery.filter((term) => text.includes(term)).length;
      if (matches > 0) results.push({ ...page, relevance: matches / lowerQuery.length });
  results.sort((a, b) => b.relevance - a.relevance);
  setSearchResults(results.slice(0, 50));
-/

/-- Query token list: lower-case, then split at whitespace runs. -/
def queryTerms (query : String) : List (List Char) := jsSplitWS (lowerL query.data)

/-- Number of query tokens that occur in the lower-cased page content,
embedding lowerQuery.filter((term) => text.includes(term)).length. -/
def pageMatches (terms : List (List Char)) (p : StoredPage) : Nat :=
  (terms.filter (fun t => jsIncludes (lowerL p.content.data) t)).length

/-- Pages of the corpus with a positive match count, in corpus order, each
annotated with the exact value of matches / lowerQuery.length. -/
def scoredMatches (query : String) (corpus : List StoredPage) : List SearchResult :=
  corpus.filterMap (fun p =>
    let m := pageMatches (queryTerms query) p
    if 0 < m then some ⟨p, mkRat m (queryTerms query).length⟩ else none)

/-- Order produced by the comparator (a, b) => b.relevance - a.relevance:
a may come no later than b exactly when its relevance is at least as large.
Equal scores leave the comparator at zero, and the engine sort is stable. -/
def rankedBefore (a b : SearchResult) : Prop := b.relevance ≤ a.relevance

instance : DecidableRel rankedBefore :=
  fun a b => inferInstanceAs (Decidable (b.relevance ≤ a.relevance))

instance : IsTotal SearchResult rankedBefore :=
  ⟨fun a b => le_total b.relevance a.relevance⟩

instance : IsTrans SearchResult rankedBefore :=
  ⟨fun _ _ _ h1 h2 => le_trans h2 h1⟩

/-- Guard !searchQuery.trim(): the query trims to the empty string. -/
def blankQuery (query : String) : Bool := (jsTrim query.data).isEmpty

/-- The search operation over an explicit corpus snapshot (the component
assembles the corpus by reading every saved domain before this logic runs). -/
def search (query : String) (corpus : List StoredPage) : List SearchResult :=
  if blankQuery query then []
  else (List.insertionSort rankedBefore (scoredMatches query corpus)).take 50

/-! Part 4: snippet extraction, from getSnippet:

  const text = content.replace(/<[^>]+>/g, " ").replace(/\s+/g, " ");
  const idx = text.toLowerCase().indexOf(query.toLowerCase().split(/\s+/)[0]);
  if (idx === -1) return text.slice(0, 200) + "...";
  const start = Math.max(0, idx - 80);
  return (start > 0 ? "..." : "") + text.slice(start, start + 200) + "...";
-/

/-- Scan for the closing bracket of a markup tag, after at least one
non-bracket character has been seen; returns the suffix after it. -/
def tagClose : List Char → Option (List Char)
  | [] => none
  | '>' :: r => some r
  | _ :: r => tagClose r

/-- Attempt of the tag pattern at the current position: at least one
character other than the closing bracket, then the closing bracket. -/
def tagEnd : List Char → Option (List Char)
  | [] => none
  | '>' :: _ => none
  | _ :: rest => tagClose rest

/-- Fuel-driven body of stripTags; the fuel is bounded by the input length
and every step consumes at least one character. -/
def stripTagsAux : Nat → List Char → List Char
  | 0, l => l
  | _ + 1, [] => []
  | fuel + 1, '<' :: rest =>
    match tagEnd rest with
    | some rest2 => ' ' :: stripTagsAux fuel rest2
    | none => '<' :: stripTagsAux fuel rest
  | fuel + 1, c :: rest => c :: stripTagsAux fuel rest

/-- Embedding of replace(/<[^>]+>/g, " "): every maximal tag-shaped chunk is
replaced by one space; an unclosed opening bracket is kept verbatim. -/
def stripTags (l : List Char) : List Char := stripTagsAux l.length l

/-- Plain text of a page: tags stripped, whitespace collapsed (no trim). -/
def snippetText (content : String) : List Char := collapseWS (stripTags content.data)

/-- First element of the whitespace split of the lower-cased query; the split
never returns an empty list, so the default branch is unreachable. -/
def firstTerm (query : String) : List Char := (jsSplitWS (lowerL query.data)).headD []

/-- Embedding of getSnippet.  Natural subtraction gives exactly
Math.max(0, idx - 80), and slice(start, start + 200) is drop-then-take. -/
def getSnippet (content query : String) : String :=
  let text := snippetText content
  match jsIndexOf (lowerL text) (firstTerm query) with
  | none => String.mk (text.take 200 ++ "...".data)
  | some idx =>
    String.mk ((if 0 < idx - 80 then "...".data else []) ++
      ((text.drop (idx - 80)).take 200) ++ "...".data)

/-! Part 5: title extraction, from getTitle:

  const match = content.match(/<title[^>]*>([^<]*)<\/title>/i) || content.match(/^#\s+(.+)/m);
  return match?.[1]?.trim() || new URL(url).pathname;
-/

/-- Does the pattern match the head of the text up to ASCII case? -/
def ciPrefix : List Char → List Char → Bool
  | [], _ => true
  | _ :: _, [] => false
  | p :: ps, c :: cs => lowerChar c = lowerChar p && ciPrefix ps cs

/-- Attempt of the title-tag pattern at the current position.  The attribute
part takes everything up to the first closing bracket, the capture takes
everything up to the first opening bracket, and the closing tag is compared
case-insensitively; no other backtracking is possible at a fixed start. -/
def titleTryAt (l : List Char) : Option (List Char) :=
  if ciPrefix ("<title".data) l then
    match tagClose (l.drop 6) with
    | none => none
    | some afterOpen =>
      let cap := afterOpen.takeWhile (fun c => !(c == '<'))
      if ciPrefix ("</title>".data) (afterOpen.drop cap.length) then some cap else none
  else none

/-- Leftmost match of the title-tag pattern: try every start position from
the left, as the regex engine does. -/
def titleScan : List Char → Option (List Char)
  | [] => none
  | c :: rest =>
    match titleTryAt (c :: rest) with
    | some cap => some cap
    | none => titleScan rest

/-- Last character of the list that is not a line feed, if any.  Used by the
backtracking of the heading pattern when the greedy whitespace run reaches
the end of the string. -/
def lastNonLF : List Char → Option Char
  | [] => none
  | c :: rest =>
    match lastNonLF rest with
    | some d => some d
    | none => if c == '\n' then none else some c

/-- Attempt of the heading pattern at a line start.  The whitespace class of
the regex crosses line feeds, and the dot class does not; when the greedy run
hits the end of the input the engine gives characters back one at a time, so
the capture becomes the last whitespace character that is not a line feed,
provided at least one whitespace character is still consumed. -/
def headingTryAt (l : List Char) : Option (List Char) :=
  match l with
  | '#' :: rest =>
    let run := rest.takeWhile Char.isWhitespace
    let after := rest.drop run.length
    if run.isEmpty then none
    else
      match after with
      | c :: cs => some (c :: cs.takeWhile (fun d => !(d == '\n')))
      | [] =>
        match lastNonLF (run.drop 1) with
        | some c => some [c]
        | none => none
  | _ => none

/-- Leftmost multiline match of the heading pattern: position zero first,
then the position after every line feed, in order. -/
def headingScan : List Char → Option (List Char)
  | [] => none
  | c :: rest =>
    if c == '\n' then
      match headingTryAt rest with
      | some cap => some cap
      | none => headingScan rest
    else headingScan rest

/-- Leftmost multiline match of the whole heading pattern: position zero,
then after every line feed. -/
def headingMatch (l : List Char) : Option (List Char) :=
  match headingTryAt l with
  | some cap => some cap
  | none => headingScan l

/-- Full embedding of the match chain of getTitle: first the title tag
anywhere in the content, then the heading pattern at a line start. -/
def titleMatch (content : String) : Option (List Char) :=
  match titleScan content.data with
  | some cap => some cap
  | none => headingMatch content.data

/-- Scheme characters allowed after the leading letter of a URL scheme. -/
def schemeChar (c : Char) : Bool :=
  c.isAlphanum || c == '+' || c == '-' || c == '.'

/-- Modelled from the platform: the WHATWG URL constructor, simplified to
what getTitle observes.  Parsing succeeds exactly when the input starts with
a scheme (a letter, then scheme characters, then a colon); an input without
one, such as a relative path, makes the constructor throw, modelled as none.
The pathname of a host-based URL is the part from the first slash after the
authority up to a query or fragment, defaulting to a single slash; the
pathname of an opaque URL is everything after the colon up to a query or
fragment. -/
def urlPathname (url : String) : Option String :=
  match url.data with
  | [] => none
  | c :: rest =>
    if c.isAlpha then
      let after := rest.dropWhile schemeChar
      match after with
      | ':' :: r3 =>
        if r3.take 2 = ['/', '/'] then
          let afterAuth := (r3.drop 2).dropWhile
            (fun ch => !(ch == '/') && !(ch == '?') && !(ch == '#'))
          let path := afterAuth.takeWhile (fun ch => !(ch == '?') && !(ch == '#'))
          some (String.mk (if path.isEmpty then ['/'] else path))
        else
          some (String.mk (r3.takeWhile (fun ch => !(ch == '?') && !(ch == '#'))))
      | _ => none
    else none

/-- Embedding of getTitle.  A trimmed capture that is empty is falsy in the
source, so it falls through to the pathname, and only that fallback can
throw; none models the throw. -/
def getTitle (content url : String) : Option String :=
  match titleMatch content with
  | some cap =>
    if (jsTrim cap).isEmpty then urlPathname url else some (String.mk (jsTrim cap))
  | none => urlPathname url

/-! Part 6: decimal digit strings, shared by the csv and json emitters.  The
fuel argument is bounded below by the value itself, which always suffices
because the value shrinks by a factor of ten at every step. -/

/-- Decimal digit character. -/
def digitCh (n : Nat) : Char := Char.ofNat (48 + n)

/-- Fuel-driven digit emitter. -/
def natCharsAux : Nat → Nat → List Char
  | 0, _ => []
  | fuel + 1, n =>
    if n < 10 then [digitCh n] else natCharsAux fuel (n / 10) ++ [digitCh (n % 10)]

/-- Decimal representation of a natural number, most significant digit
first, embedding how template literals render the integers of this app. -/
def natChars (n : Nat) : List Char := natCharsAux (n + 1) n

/-- Zero-pad a digit string on the left to the given width. -/
def zeroPad (w : Nat) (l : List Char) : List Char :=
  List.replicate (w - l.length) '0' ++ l

/-! Part 7: the csv export branch, from exportPages / escapeCSV:

  function escapeCSV(str) {
    if (str.includes(",") || str.includes(quote) || str.includes(newline))
      return quote + str.replace(/"/g, double-quote) + quote;
    return str; }
  const header = "url,domain,status,content_size,timestamp" + newline;
  const rows = pages.map((p) => [escapeCSV(p.url), escapeCSV(p.domain),
    p.status || "", p.contentSize, new Date(p.timestamp).toISOString()]).join(newline);
-/

/-- Condition of escapeCSV exactly as the source spells it, three substring
searches. -/
def csvNeedsQuote (l : List Char) : Bool :=
  jsIncludes l [','] || jsIncludes l ['"'] || jsIncludes l ['\n']

/-- Embedding of str.replace(/"/g, two double-quotes). -/
def doubleQuotes (l : List Char) : List Char :=
  l.flatMap (fun c => if c = '"' then ['"', '"'] else [c])

/-- Embedding of escapeCSV. -/
def escapeCSV (s : String) : String :=
  if csvNeedsQuote s.data then String.mk ('"' :: doubleQuotes s.data ++ ['"']) else s

/-- Civil date from a day count since 1970-01-01, proleptic Gregorian
calendar, era decomposition; returns (year, month, day). -/
def civilFromDays (z : Nat) : Nat × Nat × Nat :=
  let zz := z + 719468
  let era := zz / 146097
  let doe := zz % 146097
  let yoe := (doe - doe / 1460 + doe / 36524 - doe / 146096) / 365
  let y := yoe + era * 400
  let doy := doe - (365 * yoe + yoe / 4 - yoe / 100)
  let mp := (5 * doy + 2) / 153
  let d := doy - (153 * mp + 2) / 5 + 1
  let m := if mp < 10 then mp + 3 else mp - 9
  (if m ≤ 2 then y + 1 else y, m, d)

/-- Largest millisecond value the platform Date accepts; toISOString throws
beyond it. -/
def maxDateMillis : Nat := 8640000000000000

/-- Formatting core of Date.prototype.toISOString for a non-negative
millisecond timestamp: calendar date from the day count, then clock fields
from the remainder; years above 9999 use the expanded six-digit form with a
leading plus, exactly as the platform serializes them. -/
def isoCore (ms : Nat) : String :=
  let days := ms / 86400000
  let rem := ms % 86400000
  let c := civilFromDays days
  let yearStr :=
    if c.1 ≤ 9999 then zeroPad 4 (natChars c.1) else '+' :: zeroPad 6 (natChars c.1)
  String.mk (yearStr ++ '-' :: zeroPad 2 (natChars c.2.1) ++ '-' :: zeroPad 2 (natChars c.2.2) ++
    'T' :: zeroPad 2 (natChars (rem / 3600000)) ++
    ':' :: zeroPad 2 (natChars (rem % 3600000 / 60000)) ++
    ':' :: zeroPad 2 (natChars (rem % 60000 / 1000)) ++
    '.' :: zeroPad 3 (natChars (rem % 1000)) ++ ['Z'])

/-- Modelled from the platform: new Date(ms).toISOString(), which throws (here
none) outside the representable range. -/
def isoOfMillis (ms : Nat) : Option String :=
  if ms ≤ maxDateMillis then some (isoCore ms) else none

/-- Status column: a zero status is falsy in the source and renders empty. -/
def statusField (status : Nat) : String :=
  if status = 0 then ("") else String.mk (natChars status)

/-- One csv row; none when the timestamp makes toISOString throw. -/
def csvRow (p : StoredPage) : Option String :=
  (isoOfMillis p.timestamp).map (fun iso =>
    escapeCSV p.url ++ "," ++ escapeCSV p.domain ++ "," ++ statusField p.status ++ "," ++
      String.mk (natChars p.contentSize) ++ "," ++ iso)

/-- All csv rows; the first throwing row aborts the whole export. -/
def csvRows : List StoredPage → Option (List String)
  | [] => some []
  | p :: ps =>
    match csvRow p, csvRows ps with
    | some r, some rs => some (r :: rs)
    | _, _ => none

/-- Header line of the csv artifact. -/
def csvHeader : String := "url,domain,status,content_size,timestamp\n"

/-- Embedding of the csv branch of exportPages: header plus rows joined by
line feeds (no trailing line feed after the last row). -/
def exportCSV (pages : List StoredPage) : Option String :=
  (csvRows pages).map (fun rows => csvHeader ++ String.intercalate ("\n") rows)

/-! Part 8: the json export branch, from exportPages:

  const data = pages.map((p) => ({ url: p.url, content: p.content,
    status: p.status, domain: p.domain, timestamp: p.timestamp }));
  JSON.stringify(data, null, 2)
-/

/-- Lower-case hexadecimal digit character. -/
def hexDigitCh (n : Nat) : Char :=
  if n < 10 then Char.ofNat (48 + n) else Char.ofNat (87 + n)

/-- Escape of one character inside a serialized json string, following the
platform QuoteJSONString order: quote, backslash, the five short escapes,
then a four-digit hexadecimal escape for the remaining control characters. -/
def jsonEscapeChar (c : Char) : List Char :=
  if c = '"' then ['\\', '"']
  else if c = '\\' then ['\\', '\\']
  else if c = '\x08' then ['\\', 'b']
  else if c = '\t' then ['\\', 't']
  else if c = '\n' then ['\\', 'n']
  else if c = '\x0c' then ['\\', 'f']
  else if c = '\r' then ['\\', 'r']
  else if c.toNat < 32 then
    ['\\', 'u', '0', '0', hexDigitCh (c.toNat / 16), hexDigitCh (c.toNat % 16)]
  else [c]

/-- Serialized json string: quoted, with every character escaped as needed. -/
def jsonStringChars (l : List Char) : List Char :=
  '"' :: l.flatMap jsonEscapeChar ++ ['"']

/-- One member line at object depth: four spaces of indentation, the quoted
key, a colon, a space, then the serialized value. -/
def jsonMemberChars (key : String) (v : List Char) : List Char :=
  [' ', ' ', ' ', ' '] ++ jsonStringChars key.data ++ [':', ' '] ++ v

/-- One page object exactly as JSON.stringify(data, null, 2) lays it out at
array depth one: members separated by comma plus line feed, closing brace
indented two spaces. -/
def jsonPageChars (p : StoredPage) : List Char :=
  '{' :: '\n' :: jsonMemberChars ("url") (jsonStringChars p.url.data) ++ [',', '\n'] ++
  jsonMemberChars ("content") (jsonStringChars p.content.data) ++ [',', '\n'] ++
  jsonMemberChars ("status") (natChars p.status) ++ [',', '\n'] ++
  jsonMemberChars ("domain") (jsonStringChars p.domain.data) ++ [',', '\n'] ++
  jsonMemberChars ("timestamp") (natChars p.timestamp) ++ ['\n', ' ', ' ', '}']

/-- Array items joined by comma plus line feed. -/
def joinComma : List (List Char) → List Char
  | [] => []
  | [x] => x
  | x :: xs => x ++ ',' :: '\n' :: joinComma xs

/-- Character stream of JSON.stringify(data, null, 2): the empty array
serializes to a bare bracket pair, otherwise each item is indented two
spaces inside the bracket lines. -/
def exportJSONChars (pages : List StoredPage) : List Char :=
  match pages with
  | [] => ['[', ']']
  | _ :: _ =>
    '[' :: '\n' :: joinComma (pages.map (fun p => ' ' :: ' ' :: jsonPageChars p)) ++ ['\n', ']']

/-- Embedding of the json branch of exportPages. -/
def exportJSON (pages : List StoredPage) : String := String.mk (exportJSONChars pages)

/-! Part 9: a json reader for the emitted artifact, used to state the
round-trip property.  It accepts any array of flat objects whose values are
strings or unsigned integers, with arbitrary whitespace between tokens, not
merely the exact layout the emitter produces. -/

/-- Json values occurring in the artifact. -/
inductive JVal where
  | str : List Char → JVal
  | num : Nat → JVal
deriving DecidableEq

/-- Skip whitespace between tokens. -/
def skipWS : List Char → List Char
  | [] => []
  | c :: rest => if c.isWhitespace then skipWS rest else c :: rest

/-- Value of a hexadecimal digit character. -/
def hexVal (c : Char) : Option Nat :=
  if 48 ≤ c.toNat ∧ c.toNat ≤ 57 then some (c.toNat - 48)
  else if 97 ≤ c.toNat ∧ c.toNat ≤ 102 then some (c.toNat - 87)
  else if 65 ≤ c.toNat ∧ c.toNat ≤ 70 then some (c.toNat - 55)
  else none

/-- Read the body of a json string up to its closing quote, decoding the
escapes the emitter can produce (plus the solidus escape); codepoint escapes
are accepted below the surrogate range. -/
def readStrBody : List Char → Option (List Char × List Char)
  | [] => none
  | c :: rest =>
    if c = '"' then some ([], rest)
    else if c = '\\' then
      match rest with
      | [] => none
      | e :: r =>
        if e = '"' then (readStrBody r).map (fun p => ('"' :: p.1, p.2))
        else if e = '\\' then (readStrBody r).map (fun p => ('\\' :: p.1, p.2))
        else if e = '/' then (readStrBody r).map (fun p => ('/' :: p.1, p.2))
        else if e = 'b' then (readStrBody r).map (fun p => ('\x08' :: p.1, p.2))
        else if e = 't' then (readStrBody r).map (fun p => ('\t' :: p.1, p.2))
        else if e = 'n' then (readStrBody r).map (fun p => ('\n' :: p.1, p.2))
        else if e = 'f' then (readStrBody r).map (fun p => ('\x0c' :: p.1, p.2))
        else if e = 'r' then (readStrBody r).map (fun p => ('\r' :: p.1, p.2))
        else if e = 'u' then
          match r with
          | h1 :: h2 :: h3 :: h4 :: r2 =>
            match hexVal h1, hexVal h2, hexVal h3, hexVal h4 with
            | some a, some b, some cc, some d =>
              let n := ((a * 16 + b) * 16 + cc) * 16 + d
              if n < 55296 then
                (readStrBody r2).map (fun p => (Char.ofNat n :: p.1, p.2))
              else none
            | _, _, _, _ => none
          | _ => none
        else none
    else (readStrBody rest).map (fun p => (c :: p.1, p.2))

/-- Accumulate leading decimal digits. -/
def takeDigits : List Char → Nat → Nat × List Char
  | [], acc => (acc, [])
  | c :: rest, acc =>
    if c.isDigit then takeDigits rest (acc * 10 + (c.toNat - 48)) else (acc, c :: rest)

/-- Read an unsigned decimal number (at least one digit). -/
def readNum (l : List Char) : Option (Nat × List Char) :=
  match l with
  | [] => none
  | c :: rest => if c.isDigit then some (takeDigits (c :: rest) 0) else none

/-- Read one json value of the artifact grammar. -/
def readJVal (l : List Char) : Option (JVal × List Char) :=
  match l with
  | [] => none
  | c :: rest =>
    if c = '"' then (readStrBody rest).map (fun p => (JVal.str p.1, p.2))
    else (readNum (c :: rest)).map (fun p => (JVal.num p.1, p.2))

/-- Read one object member: quoted key, colon, value. -/
def readMember (l : List Char) : Option ((List Char × JVal) × List Char) :=
  match skipWS l with
  | [] => none
  | c :: rest =>
    if c = '"' then
      match readStrBody rest with
      | some (k, r1) =>
        match skipWS r1 with
        | [] => none
        | c2 :: r2 =>
          if c2 = ':' then (readJVal (skipWS r2)).map (fun p => ((k, p.1), p.2))
          else none
      | none => none
    else none

/-- Read the member list of a non-empty object up to the closing brace; the
fuel bounds the number of members. -/
def readMembers : Nat → List Char → Option (List (List Char × JVal) × List Char)
  | 0, _ => none
  | fuel + 1, l =>
    match readMember l with
    | none => none
    | some (m, r) =>
      match skipWS r with
      | [] => none
      | c :: r2 =>
        if c = ',' then (readMembers fuel r2).map (fun p => (m :: p.1, p.2))
        else if c = '}' then some ([m], r2)
        else none

/-- Read one object. -/
def readObj (fuel : Nat) (l : List Char) : Option (List (List Char × JVal) × List Char) :=
  match skipWS l with
  | [] => none
  | c :: r =>
    if c = '{' then
      match skipWS r with
      | [] => none
      | c2 :: r2 => if c2 = '}' then some ([], r2) else readMembers fuel r
    else none

/-- Read the item list of a non-empty array up to the closing bracket. -/
def readItems : Nat → List Char → Option (List (List (List Char × JVal)) × List Char)
  | 0, _ => none
  | fuel + 1, l =>
    match readObj fuel l with
    | none => none
    | some (o, r) =>
      match skipWS r with
      | [] => none
      | c :: r2 =>
        if c = ',' then (readItems fuel r2).map (fun p => (o :: p.1, p.2))
        else if c = ']' then some ([o], r2)
        else none

/-- Read a whole artifact: an array of flat objects and nothing else. -/
def readTop (l : List Char) : Option (List (List (List Char × JVal))) :=
  match skipWS l with
  | [] => none
  | c :: r =>
    if c = '[' then
      match skipWS r with
      | [] => none
      | c2 :: r2 =>
        if c2 = ']' then (if skipWS r2 = [] then some [] else none)
        else
          match readItems (l.length + 1) r with
          | some (items, rest) => if skipWS rest = [] then some items else none
          | none => none
    else none

/-- The five fields the structured artifact carries for each page. -/
structure PageRecord where
  url : String
  content : String
  status : Nat
  domain : String
  timestamp : Nat
deriving DecidableEq

/-- Projection of a stored page onto the exported fields. -/
def pageRecordOf (p : StoredPage) : PageRecord :=
  ⟨p.url, p.content, p.status, p.domain, p.timestamp⟩

/-- Member association list that reading one exported page object yields. -/
def objMembers (p : StoredPage) : List (List Char × JVal) :=
  [(("url").data, JVal.str p.url.data),
   (("content").data, JVal.str p.content.data),
   (("status").data, JVal.num p.status),
   (("domain").data, JVal.str p.domain.data),
   (("timestamp").data, JVal.num p.timestamp)]

/-- String field lookup in a parsed object. -/
def memberStr (ms : List (List Char × JVal)) (k : String) : Option String :=
  match ms.lookup k.data with
  | some (JVal.str s) => some (String.mk s)
  | _ => none

/-- Numeric field lookup in a parsed object. -/
def memberNum (ms : List (List Char × JVal)) (k : String) : Option Nat :=
  match ms.lookup k.data with
  | some (JVal.num n) => some n
  | _ => none

/-- Recover a page record from a parsed object. -/
def toRecord (ms : List (List Char × JVal)) : Option PageRecord :=
  match memberStr ms ("url"), memberStr ms ("content"), memberNum ms ("status"),
      memberStr ms ("domain"), memberNum ms ("timestamp") with
  | some u, some c, some s, some d, some t => some ⟨u, c, s, d, t⟩
  | _, _, _, _, _ => none

/-- Recover every record or fail. -/
def recordsOf : List (List (List Char × JVal)) → Option (List PageRecord)
  | [] => some []
  | m :: rest =>
    match toRecord m, recordsOf rest with
    | some r, some rs => some (r :: rs)
    | _, _ => none

/-- Parse an emitted structured artifact back into page records. -/
def parseExport (s : String) : Option (List PageRecord) :=
  match readTop s.data with
  | some items => recordsOf items
  | none => none

/-! Part 10: the markdown export branch, from exportPages:

  const title = p.content.match(/<title[^>]*>([^<]*)<\/title>/i)?.[1]?.trim() || p.url;
  const text = p.content.replace(/<[^>]+>/g, " ").replace(/\s+/g, " ").trim();
  section = heading line, blank, URL line, blank, text.slice(0, 2000) plus
  ellipsis when longer, blank, separator; sections joined by line feeds.
-/

/-- Section title of the markdown export: only the title tag is consulted,
and a missing or blank capture falls back to the full url. -/
def mdTitleOf (p : StoredPage) : String :=
  match titleScan p.content.data with
  | some cap => if (jsTrim cap).isEmpty then p.url else String.mk (jsTrim cap)
  | none => p.url

/-- Plain text of a page in the markdown export: tags stripped, whitespace
collapsed, then trimmed. -/
def mdText (p : StoredPage) : List Char := jsTrim (collapseWS (stripTags p.content.data))

/-- One markdown section. -/
def mdSection (p : StoredPage) : String :=
  "## " ++ mdTitleOf p ++ "\n\n**URL:** " ++ p.url ++ "\n\n" ++
    String.mk ((mdText p).take 2000) ++
    (if 2000 < (mdText p).length then ("...") else ("")) ++ "\n\n---\n"

/-- Embedding of the markdown branch of exportPages. -/
def exportMarkdown (pages : List StoredPage) : String :=
  String.intercalate ("\n") (pages.map mdSection)

/-! Part 11: the filename stem of exportSinglePage:

  page.url.replace(/[^a-zA-Z0-9]/g, "_").slice(0, 50)
-/

/-- Ascii letter or digit. -/
def isAsciiAlnum (c : Char) : Bool :=
  (65 ≤ c.toNat ∧ c.toNat ≤ 90) ∨ (97 ≤ c.toNat ∧ c.toNat ≤ 122) ∨ (48 ≤ c.toNat ∧ c.toNat ≤ 57)

/-- Embedding of the filename stem computation of exportSinglePage. -/
def fileStem (url : String) : List Char :=
  (url.data.map (fun c => if isAsciiAlnum c then c else '_')).take 50

/-! Part 12: definitions that state claims in the words of the specification,
for comparison with the source embeddings above, plus concrete fixtures. -/

/-- Join split pieces with single spaces; used to state that the query split
loses no characters of the collapsed query, empty edge pieces included. -/
def joinSp : List (List Char) → List Char
  | [] => []
  | [t] => t
  | t :: ts => t ++ ' ' :: joinSp ts

/-- Scoring rule in the words of the specification: the set of distinct
non-empty query terms, each contributing by presence as a substring of the
lower-cased content. -/
def specC1Relevance (query content : String) : ℚ :=
  let terms := ((jsSplitWS (lowerL query.data)).filter (fun t => !t.isEmpty)).dedup
  mkRat (terms.countP (fun t => decide (t <:+: lowerL content.data))) terms.length

/-- Field quoting rule in the words of the specification: a value containing
a comma, double-quote, or newline is wrapped in double quotes with internal
double-quotes doubled; otherwise it is emitted verbatim. -/
def specCSVField (s : String) : String :=
  if ',' ∈ s.data ∨ '"' ∈ s.data ∨ '\n' ∈ s.data
  then String.mk ('"' :: doubleQuotes s.data ++ ['"']) else s

/-- One tabular row in the words of the specification: the five columns with
the quoting rule applied and the timestamp rendered as an ISO-8601 instant. -/
def specCSVRow (p : StoredPage) : String :=
  specCSVField p.url ++ "," ++ specCSVField p.domain ++ "," ++ statusField p.status ++
    "," ++ String.mk (natChars p.contentSize) ++ "," ++ isoCore p.timestamp

/-- Heading tier of the claim wording about getTitle: the heading text when
one is present and trims to something, else the pathname. -/
def specC7Heading (content url : String) : Option String :=
  match headingMatch content.data with
  | some cap => if (jsTrim cap).isEmpty then urlPathname url else some (String.mk (jsTrim cap))
  | none => urlPathname url

/-- Title extraction in the words of the claim about getTitle: the title tag
content when one is present, else the heading text, else the pathname, where
a capture that trims to nothing counts as absent and falls through to the
next strategy. -/
def specC7Title (content url : String) : Option String :=
  match titleScan content.data with
  | some cap =>
    if (jsTrim cap).isEmpty then specC7Heading content url
    else some (String.mk (jsTrim cap))
  | none => specC7Heading content url

/-- Section title in the words of the claim about the document export: the
full title chain of getTitle (title tag, then markdown heading), falling
back to the url. -/
def specC8Title (p : StoredPage) : String :=
  match titleMatch p.content with
  | some cap => if (jsTrim cap).isEmpty then p.url else String.mk (jsTrim cap)
  | none => p.url

/-- One document section in the words of the claim. -/
def specC8Section (p : StoredPage) : String :=
  "## " ++ specC8Title p ++ "\n\n**URL:** " ++ p.url ++ "\n\n" ++
    String.mk ((mdText p).take 2000) ++
    (if 2000 < (mdText p).length then ("...") else ("")) ++ "\n\n---\n"

/-- Document export in the words of the claim. -/
def specC8Export (pages : List StoredPage) : String :=
  String.intercalate ("\n") (pages.map specC8Section)

/-- One document section in the words of the amended claim: the heading is
the trimmed title-tag capture when that is non-empty and otherwise the full
url, and the body carries an ellipsis exactly when it was truncated. -/
def specC8AmendedSection (p : StoredPage) : String :=
  "## " ++ mdTitleOf p ++ "\n\n**URL:** " ++ p.url ++ "\n\n" ++
    (if (mdText p).length ≤ 2000 then String.mk (mdText p)
     else String.mk ((mdText p).take 2000) ++ "...") ++ "\n\n---\n"

/-- Document export in the words of the amended claim. -/
def specC8AmendedExport (pages : List StoredPage) : String :=
  String.intercalate ("\n") (pages.map specC8AmendedSection)

/-- Fixture: a page whose content is the single word cat. -/
def pageCat : StoredPage := ⟨"https://a.com/1", "a.com", "cat", 200, 3, 0⟩

/-- Fixture: a page whose content is the single word dog. -/
def pageDog : StoredPage := ⟨"https://a.com/2", "a.com", "dog", 200, 3, 0⟩

/-- Fixture: a markdown page with a level-1 heading and no title tag. -/
def pageMd : StoredPage := ⟨"https://b.com/page", "b.com", "# My Heading", 200, 12, 0⟩

/-- Fixture: a page whose url needs csv quoting. -/
def pageCSV : StoredPage :=
  ⟨"https://a.com/x,y", "a.com", "body", 200, 4, 1700000000000⟩

/-! Part 13: lemmas about the string primitives. -/

/-- Substring search succeeds exactly on infixes. -/
theorem jsIncludes_iff (pat : List Char) :
    ∀ l : List Char, jsIncludes l pat = true ↔ pat <:+: l := by
  intro l
  induction l with
  | nil =>
    by_cases h : pat.isPrefixOf ([] : List Char)
    · rw [jsIncludes, jsIndexOf, if_pos h]
      simp only [Option.isSome_some, true_iff]
      exact (List.isPrefixOf_iff_prefix.mp h).isInfix
    · rw [jsIncludes, jsIndexOf, if_neg h]
      simp only [Option.isSome_none, Bool.false_eq_true, false_iff]
      intro hinf
      rw [List.infix_nil] at hinf
      subst hinf
      exact h (by decide)
  | cons c rest ih =>
    by_cases h : pat.isPrefixOf (c :: rest)
    · rw [jsIncludes, jsIndexOf, if_pos h]
      simp only [Option.isSome_some, true_iff]
      exact (List.isPrefixOf_iff_prefix.mp h).isInfix
    · rw [jsIncludes, jsIndexOf, if_neg h]
      show ((jsIndexOf rest pat).map (· + 1)).isSome = true ↔ pat <:+: c :: rest
      have hmap : ((jsIndexOf rest pat).map (· + 1)).isSome = (jsIndexOf rest pat).isSome := by
        cases jsIndexOf rest pat <;> rfl
      rw [hmap]
      rw [jsIncludes] at ih
      rw [ih, List.infix_cons_iff]
      constructor
      · exact Or.inr
      · rintro (hp | hi)
        · exact absurd (List.isPrefixOf_iff_prefix.mpr hp) h
        · exact hi

/-- Boolean form of the substring search. -/
theorem jsIncludes_eq (l pat : List Char) : jsIncludes l pat = decide (pat <:+: l) := by
  by_cases h : pat <:+: l
  · rw [(jsIncludes_iff pat l).mpr h, decide_eq_true h]
  · rw [decide_eq_false h]
    by_contra hb
    rw [Bool.not_eq_false] at hb
    exact h ((jsIncludes_iff pat l).mp hb)

/-- Substring search for one character is membership. -/
theorem singleton_infix_iff (c : Char) (l : List Char) : [c] <:+: l ↔ c ∈ l := by
  constructor
  · intro h
    exact h.sublist.subset (by simp)
  · intro h
    obtain ⟨s, t, rfl⟩ := List.append_of_mem h
    exact ⟨s, t, by simp⟩

/-- Every whitespace character surviving the collapse is a plain space. -/
theorem collapse_ws_space :
    ∀ (l : List Char) (b : Bool) (c : Char),
      c ∈ collapseWSAux b l → c.isWhitespace = true → c = ' ' := by
  intro l
  induction l with
  | nil => intro b c hc; cases hc
  | cons d rest ih =>
    intro b c hc hw
    rw [collapseWSAux] at hc
    by_cases hd : d.isWhitespace
    · rw [if_pos hd] at hc
      cases b with
      | true => exact ih true c hc hw
      | false =>
        rcases List.mem_cons.mp hc with rfl | hmem
        · rfl
        · exact ih true c hmem hw
    · rw [if_neg hd] at hc
      rcases List.mem_cons.mp hc with rfl | hmem
      · exact absurd hw (by simpa using hd)
      · exact ih false c hmem hw

/-- The whitespace split never produces the empty list. -/
theorem splitSpAux_ne_nil : ∀ (l acc : List Char), splitSpAux acc l ≠ [] := by
  intro l
  induction l with
  | nil => intro acc h; cases h
  | cons c rest ih =>
    intro acc
    rw [splitSpAux]
    by_cases hc : c.isWhitespace
    · rw [if_pos hc]; intro h; cases h
    · rw [if_neg hc]; exact ih (c :: acc)

/-- Joining the pieces of the split of a collapsed text with single spaces
restores the text, so the split loses nothing, edge pieces included. -/
theorem joinSp_splitSpAux :
    ∀ (l acc : List Char), (∀ c ∈ l, c.isWhitespace = true → c = ' ') →
      joinSp (splitSpAux acc l) = acc.reverse ++ l := by
  intro l
  induction l with
  | nil => intro acc _; simp [splitSpAux, joinSp]
  | cons c rest ih =>
    intro acc hws
    rw [splitSpAux]
    by_cases hc : c.isWhitespace
    · rw [if_pos hc]
      have hcs : c = ' ' := hws c (List.mem_cons_self c rest) hc
      obtain ⟨y, ys, hy⟩ := List.exists_cons_of_ne_nil (splitSpAux_ne_nil rest [])
      have hstep : joinSp (acc.reverse :: splitSpAux [] rest) =
          acc.reverse ++ ' ' :: joinSp (splitSpAux [] rest) := by
        rw [hy]; rfl
      rw [hstep, ih [] (fun d hd => hws d (List.mem_cons_of_mem c hd))]
      simp [hcs]
    · rw [if_neg hc, ih (c :: acc) (fun d hd => hws d (List.mem_cons_of_mem c hd))]
      simp

/-- The query split is lossless on the collapsed lower-cased query. -/
theorem joinSp_jsSplitWS (l : List Char) : joinSp (jsSplitWS l) = collapseWS l :=
  joinSp_splitSpAux (collapseWS l) [] (fun c hc => collapse_ws_space l false c hc)

/-! Part 14: lemmas about the search pipeline. -/

/-- Match counting in the words of the amended scoring claim. -/
theorem pageMatches_countP (terms : List (List Char)) (p : StoredPage) :
    pageMatches terms p = terms.countP (fun t => decide (t <:+: lowerL p.content.data)) := by
  rw [pageMatches, List.countP_eq_length_filter]
  exact congrArg List.length (List.filter_congr (fun t _ => jsIncludes_eq _ t))

/-- Characterization of membership in the scored match list. -/
theorem mem_scored {q : String} {c : List StoredPage} {r : SearchResult}
    (h : r ∈ scoredMatches q c) :
    ∃ p ∈ c, 0 < pageMatches (queryTerms q) p ∧
      r = ⟨p, mkRat (pageMatches (queryTerms q) p) (queryTerms q).length⟩ := by
  rw [scoredMatches, List.mem_filterMap] at h
  obtain ⟨p, hp, he⟩ := h
  dsimp only at he
  by_cases hm : 0 < pageMatches (queryTerms q) p
  · rw [if_pos hm] at he
    exact ⟨p, hp, hm, (Option.some_injective _ he).symm⟩
  · rw [if_neg hm] at he; cases he

/-- A positive match count gives a positive relevance. -/
theorem relevance_pos {q : String} {p : StoredPage}
    (hm : 0 < pageMatches (queryTerms q) p) :
    0 < mkRat (pageMatches (queryTerms q) p) (queryTerms q).length := by
  have hle : pageMatches (queryTerms q) p ≤ (queryTerms q).length :=
    List.length_filter_le _ _
  have hn : 0 < (queryTerms q).length := lt_of_lt_of_le hm hle
  rw [Rat.mkRat_eq_div]
  apply div_pos
  · exact_mod_cast hm
  · exact_mod_cast hn

/-- Every search result is a scored match. -/
theorem mem_search {q : String} {c : List StoredPage} {r : SearchResult}
    (h : r ∈ search q c) : r ∈ scoredMatches q c := by
  rw [search] at h
  split at h
  · cases h
  · exact ((List.perm_insertionSort rankedBefore _).mem_iff).mp (List.mem_of_mem_take h)

/-- Insertion keeps the subsequence of any fixed relevance value intact:
the new element lands in front of its value class only when it carries that
value, because every element it jumps over has a strictly larger value. -/
theorem filter_orderedInsert (v : ℚ) (a : SearchResult) :
    ∀ l : List SearchResult,
      (List.orderedInsert rankedBefore a l).filter (fun r => decide (r.relevance = v)) =
        if a.relevance = v then a :: l.filter (fun r => decide (r.relevance = v))
        else l.filter (fun r => decide (r.relevance = v)) := by
  intro l
  induction l with
  | nil =>
    rw [List.orderedInsert]
    by_cases hav : a.relevance = v
    · simp [hav]
    · simp [hav]
  | cons b t ih =>
    rw [List.orderedInsert]
    by_cases hab : rankedBefore a b
    · rw [if_pos hab]
      by_cases hav : a.relevance = v <;> by_cases hbv : b.relevance = v <;>
        simp [List.filter_cons, hav, hbv]
    · rw [if_neg hab]
      have hba : a.relevance < b.relevance := lt_of_not_le hab
      by_cases hbv : b.relevance = v
      · have hav : ¬ a.relevance = v := by
          rw [← hbv]; exact ne_of_lt hba
        simp [List.filter_cons, hbv, hav, ih]
      · by_cases hav : a.relevance = v <;> simp [List.filter_cons, hbv, hav, ih]

/-- Stability of the engine sort: for every relevance value, the results of
one value keep the order the corpus gave them. -/
theorem filter_insertionSort (v : ℚ) :
    ∀ l : List SearchResult,
      (List.insertionSort rankedBefore l).filter (fun r => decide (r.relevance = v)) =
        l.filter (fun r => decide (r.relevance = v)) := by
  intro l
  induction l with
  | nil => rfl
  | cons a t ih =>
    rw [List.insertionSort, filter_orderedInsert, ih, List.filter_cons]
    by_cases hav : a.relevance = v <;> simp [hav]

/-! Part 15: the claims about the search operation. -/

/-- C1, counterexample.  The claim scores by distinct terms: for the query
with tokens cat, cat, dog against a page containing cat, the distinct-term
ratio is one half, but the code counts the duplicated token twice and
assigns two thirds. -/
theorem search_scoring_counterexample :
    search "cat cat dog" [pageCat] = [⟨pageCat, mkRat 2 3⟩] ∧
    specC1Relevance "cat cat dog" pageCat.content = mkRat 1 2 ∧
    mkRat 2 3 ≠ mkRat 1 2 :=
  ⟨by decide, by decide, by decide⟩

/-- C1 (amended): every result carries relevance equal to the number of
entries of the whitespace-split lower-cased query token list, duplicates and
empty edge tokens included, that occur as substrings of the lower-cased page
content, divided by the length of that token list; each token contributes by
presence only, never by its number of occurrences in the content. -/
theorem search_relevance_formula (query : String) (corpus : List StoredPage) :
    ∀ r ∈ search query corpus,
      r.relevance = mkRat ((queryTerms query).countP
          (fun t => decide (t <:+: lowerL r.page.content.data)))
        (queryTerms query).length := by
  intro r hr
  obtain ⟨p, _, _, rfl⟩ := mem_scored (mem_search hr)
  dsimp only
  rw [pageMatches_countP]

/-- Witness for the amended scoring formula at a concrete search. -/
theorem search_relevance_formula_witness :
    (SearchResult.mk pageCat (mkRat 2 3)).relevance =
      mkRat ((queryTerms "cat cat dog").countP
          (fun t => decide (t <:+:
            lowerL (SearchResult.mk pageCat (mkRat 2 3)).page.content.data)))
        (queryTerms "cat cat dog").length :=
  search_relevance_formula "cat cat dog" [pageCat] ⟨pageCat, mkRat 2 3⟩ (by decide)

/-- C2, counterexample.  The claim says the query becomes a set of non-empty
terms, unaffected by edge whitespace; but a leading space makes the split
produce an empty token, the empty token is a substring of everything, and a
page without any real match is returned with score one half. -/
theorem search_normalization_counterexample :
    search " cat" [pageDog] = [⟨pageDog, mkRat 1 2⟩] ∧
    search "cat" [pageDog] = [] :=
  ⟨by decide, by decide⟩

/-- C2 (amended): the query is lower-cased and split on whitespace runs into
a token list that keeps duplicates and gains an empty token at an edge with
leading or trailing whitespace (joining the tokens with single spaces gives
back exactly the collapsed lower-cased query), and a query that trims to
nothing returns the empty result without reading any page of the corpus. -/
theorem search_normalization (query : String) (c₁ c₂ : List StoredPage) :
    joinSp (queryTerms query) = collapseWS (lowerL query.data) ∧
    (blankQuery query = true → search query c₁ = [] ∧ search query c₁ = search query c₂) := by
  refine ⟨joinSp_jsSplitWS _, fun h => ?_⟩
  rw [search, if_pos h, search, if_pos h]
  exact ⟨rfl, rfl⟩

/-- Witness for the amended normalization claim at a blank query. -/
theorem search_normalization_witness :
    joinSp (queryTerms "  ") = collapseWS (lowerL ("  ").data) ∧
    (search "  " [pageCat] = [] ∧ search "  " [pageCat] = search "  " [pageDog]) :=
  ⟨(search_normalization "  " [pageCat] [pageDog]).1,
   (search_normalization "  " [pageCat] [pageDog]).2 (by decide)⟩

/-- C3: results carry only positive relevance; they are sorted descending by
relevance; within every relevance value they keep corpus order (ties broken
by original corpus position, so equal inputs give the identical ordered
output, the search being a function of its inputs); at most fifty are
returned; and nothing kept is outranked by anything cut. -/
theorem search_ranking (query : String) (corpus : List StoredPage) :
    (∀ r ∈ search query corpus, 0 < r.relevance) ∧
    List.Sorted rankedBefore (search query corpus) ∧
    (∀ v : ℚ,
      (search query corpus).filter (fun r => decide (r.relevance = v)) <+:
        (scoredMatches query corpus).filter (fun r => decide (r.relevance = v))) ∧
    (search query corpus).length ≤ 50 ∧
    (∀ r ∈ search query corpus,
      ∀ e ∈ (List.insertionSort rankedBefore (scoredMatches query corpus)).drop 50,
        e.relevance ≤ r.relevance) := by
  refine ⟨?_, ?_, ?_, ?_, ?_⟩
  · intro r hr
    obtain ⟨p, _, hm, rfl⟩ := mem_scored (mem_search hr)
    exact relevance_pos hm
  · rw [search]
    split
    · exact List.sorted_nil
    · exact (List.sorted_insertionSort rankedBefore _).sublist (List.take_sublist 50 _)
  · intro v
    rw [search]
    split
    · simp
    · rw [← filter_insertionSort v (scoredMatches query corpus)]
      exact (List.take_prefix 50 _).filter _
  · rw [search]
    split
    · simp
    · simp
  · intro r hr e he
    rw [search] at hr
    split at hr
    · cases hr
    · have hs := List.sorted_insertionSort rankedBefore (scoredMatches query corpus)
      rw [← List.take_append_drop 50
        (List.insertionSort rankedBefore (scoredMatches query corpus))] at hs
      exact (List.pairwise_append.mp hs).2.2 r hr e he

/-- Witness for the ranking claim at a concrete search. -/
theorem search_ranking_witness :
    0 < (SearchResult.mk pageCat (mkRat 1 1)).relevance :=
  (search_ranking "cat" [pageCat]).1 ⟨pageCat, mkRat 1 1⟩ (by decide)

/-! Part 16: the claims about snippet and title extraction. -/

/-- Index search characterization: a hit position is the least position
where the needle heads the suffix. -/
theorem jsIndexOf_least (pat : List Char) :
    ∀ (l : List Char) (i : Nat), jsIndexOf l pat = some i →
      pat.isPrefixOf (l.drop i) = true ∧
      ∀ j, j < i → pat.isPrefixOf (l.drop j) = false := by
  intro l
  induction l with
  | nil =>
    intro i h
    rw [jsIndexOf] at h
    by_cases hp : pat.isPrefixOf ([] : List Char)
    · rw [if_pos hp] at h
      injection h with h
      subst h
      exact ⟨hp, fun j hj => absurd hj (Nat.not_lt_zero j)⟩
    · rw [if_neg hp] at h
      exact absurd h (by simp)
  | cons c rest ih =>
    intro i h
    rw [jsIndexOf] at h
    by_cases hp : pat.isPrefixOf (c :: rest)
    · rw [if_pos hp] at h
      injection h with h
      subst h
      exact ⟨hp, fun j hj => absurd hj (Nat.not_lt_zero j)⟩
    · rw [if_neg hp] at h
      change ((jsIndexOf rest pat).map (· + 1)) = some i at h
      cases hjs : jsIndexOf rest pat with
      | none => rw [hjs] at h; cases h
      | some k =>
        rw [hjs] at h
        injection h with h
        subst h
        obtain ⟨h1, h2⟩ := ih k hjs
        refine ⟨h1, fun j hj => ?_⟩
        cases j with
        | zero =>
          rw [List.drop_zero]
          cases hb : pat.isPrefixOf (c :: rest) with
          | false => rfl
          | true => exact absurd hb hp
        | succ j2 => exact h2 j2 (Nat.lt_of_succ_lt_succ hj)

/-- C6: the snippet text is the tag-stripped whitespace-collapsed content
and the needle is the first token of the whitespace-split lower-cased query;
when the needle occurs, at its least position, the snippet is the window of
at most 200 characters starting 80 before the hit clamped to the start of
the text, with a leading ellipsis exactly when the window starts past
position zero, and a trailing ellipsis always; when the needle does not
occur, the snippet is the first 200 characters plus a trailing ellipsis. -/
theorem getSnippet_spec (content query : String) :
    (jsIndexOf (lowerL (snippetText content)) (firstTerm query) = none →
      getSnippet content query =
        String.mk ((snippetText content).take 200 ++ ("...").data)) ∧
    (∀ idx, jsIndexOf (lowerL (snippetText content)) (firstTerm query) = some idx →
      (firstTerm query).isPrefixOf ((lowerL (snippetText content)).drop idx) = true ∧
      (∀ j, j < idx →
        (firstTerm query).isPrefixOf ((lowerL (snippetText content)).drop j) = false) ∧
      getSnippet content query =
        String.mk ((if 80 < idx then ("...").data else []) ++
          ((snippetText content).drop (idx - 80)).take 200 ++ ("...").data)) := by
  constructor
  · intro h
    rw [getSnippet, h]
  · intro idx h
    obtain ⟨h1, h2⟩ := jsIndexOf_least (firstTerm query) (lowerL (snippetText content)) idx h
    refine ⟨h1, h2, ?_⟩
    rw [getSnippet, h]
    dsimp only
    have hcond : (if 0 < idx - 80 then ("...").data else []) =
        (if 80 < idx then ("...").data else []) := by
      by_cases hc : 80 < idx
      · rw [if_pos hc, if_pos (by omega)]
      · rw [if_neg hc, if_neg (by omega)]
    rw [hcond]

/-- Witness for the snippet claim at a concrete hit. -/
theorem getSnippet_spec_witness :
    getSnippet "hello world of cats" "cats" =
      String.mk ((if 80 < 15 then ("...").data else []) ++
        ((snippetText "hello world of cats").drop (15 - 80)).take 200 ++ ("...").data) :=
  ((getSnippet_spec "hello world of cats" "cats").2 15 (by decide)).2.2

/-- Totality core of getTitle: whenever the url parses, every branch of the
extraction returns a value. -/
theorem getTitle_isSome (content url : String) (h : (urlPathname url).isSome = true) :
    (getTitle content url).isSome = true := by
  rw [getTitle]
  cases hm : titleMatch content with
  | none => exact h
  | some cap =>
    dsimp only
    by_cases ht : (jsTrim cap).isEmpty
    · rw [if_pos ht]; exact h
    · rw [if_neg ht]; rfl

/-- C7, counterexample.  On content with a present but blank title tag
followed by a markdown heading, the code skips the heading strategy entirely
and falls through to the url pathname, while the claimed strategy chain
(title content if present, else heading, else pathname) produces the heading
text under every reading. -/
theorem getTitle_counterexample :
    getTitle "<title> </title>\n# Real Title" "https://a.com/docs" = some ("/docs") ∧
    specC7Title "<title> </title>\n# Real Title" "https://a.com/docs" = some ("Real Title") ∧
    titleScan ("<title> </title>\n# Real Title").data = some ((" ").data) ∧
    headingMatch ("<title> </title>\n# Real Title").data = some (("Real Title").data) :=
  ⟨by decide, by decide, by decide, by decide⟩

/-- C7 (amended): getTitle tries the title tag first and, only when that
pattern matches nowhere, the markdown heading; a capture whose trim is empty
falls through past the remaining markup strategy directly to the url
pathname; absence of any markup match is the normal fallback to the
pathname, and malformed markup never makes the function throw — when the
url parses, a value is always returned. -/
theorem getTitle_fallback (content url : String) (h : (urlPathname url).isSome = true) :
    (getTitle content url).isSome = true ∧
    (∀ cap, titleMatch content = some cap → (jsTrim cap).isEmpty = false →
      getTitle content url = some (String.mk (jsTrim cap))) ∧
    ((titleMatch content = none ∨
        ∃ cap, titleMatch content = some cap ∧ (jsTrim cap).isEmpty = true) →
      getTitle content url = urlPathname url) := by
  refine ⟨getTitle_isSome content url h, ?_, ?_⟩
  · intro cap hm ht
    rw [getTitle, hm]
    dsimp only
    rw [ht]
    simp
  · rintro (hm | ⟨cap, hm, ht⟩)
    · rw [getTitle, hm]
    · rw [getTitle, hm]
      dsimp only
      rw [ht]
      simp

/-- Witness for the amended title claim at a concrete heading. -/
theorem getTitle_fallback_witness :
    getTitle "# Hi" "https://a.com/docs" = some (String.mk (jsTrim (("Hi").data))) :=
  (getTitle_fallback "# Hi" "https://a.com/docs" (by decide)).2.1
    (("Hi").data) (by decide) (by decide)

/-- C9: getTitle is total only under a parseable url.  On content with
neither a non-blank title tag nor a heading, an unparseable url such as a
relative path makes the pathname fallback throw; for every url the
simplified parser accepts, the function returns a value on all content. -/
theorem getTitle_url_total :
    getTitle "plain text, no heading" "relative/path" = none ∧
    ∀ content url, (urlPathname url).isSome = true →
      (getTitle content url).isSome = true := by
  exact ⟨by decide, fun content url h => getTitle_isSome content url h⟩

/-- Witness for the totality direction of the url precondition claim. -/
theorem getTitle_url_total_witness :
    (getTitle "x" "https://a.com/p").isSome = true :=
  getTitle_url_total.2 "x" "https://a.com/p" (by decide)

/-! Part 17: the claim about the single-page filename stem. -/

/-- C10: the stem keeps ascii letters and digits, replaces every other
character by an underscore, and is truncated to at most 50 characters, so it
consists only of ascii letters, digits and underscores. -/
theorem fileStem_safe (url : String) :
    (fileStem url).length ≤ 50 ∧
    ∀ c ∈ fileStem url, isAsciiAlnum c = true ∨ c = '_' := by
  constructor
  · simp [fileStem]
  · intro c hc
    obtain ⟨d, _, he⟩ := List.mem_map.mp (List.mem_of_mem_take hc)
    by_cases hda : isAsciiAlnum d
    · rw [if_pos hda] at he
      subst he
      exact Or.inl hda
    · rw [if_neg hda] at he
      subst he
      exact Or.inr rfl

/-- Witness for the filename stem claim at a concrete url. -/
theorem fileStem_safe_witness :
    isAsciiAlnum 'h' = true ∨ 'h' = '_' :=
  (fileStem_safe "https://a.com/p").2 'h' (by decide)

/-! Part 18: the claim about the document (markdown) export. -/

/-- Section shape lemma: the source section equals the amended wording,
whose ellipsis clause is stated as a truncation case split. -/
theorem mdSection_amended (p : StoredPage) : mdSection p = specC8AmendedSection p := by
  rw [mdSection, specC8AmendedSection]
  by_cases hl : (mdText p).length ≤ 2000
  · rw [if_neg (by omega), if_pos hl, List.take_of_length_le hl]
    apply String.ext
    simp
  · rw [if_pos (by omega), if_neg hl]
    apply String.ext
    simp

/-- C8, counterexample.  The claim extracts section titles with the full
strategy chain (title tag, then markdown heading, then fallback); the code
consults only the title tag, so a page whose content is a markdown heading
gets the url as its section title instead of the heading text. -/
theorem exportMarkdown_counterexample :
    exportMarkdown [pageMd] =
      "## https://b.com/page\n\n**URL:** https://b.com/page\n\n# My Heading\n\n---\n" ∧
    specC8Export [pageMd] =
      "## My Heading\n\n**URL:** https://b.com/page\n\n# My Heading\n\n---\n" ∧
    exportMarkdown [pageMd] ≠ specC8Export [pageMd] :=
  ⟨by decide, by decide, by decide⟩

/-- C8 (amended): the document export emits, per page and in input order, a
heading whose title is the trimmed title-tag capture when present and
non-blank and the full page url otherwise (markdown headings are never
consulted), the url, and the tag-stripped whitespace-collapsed trimmed
content truncated to 2000 characters with a trailing ellipsis exactly when
truncation occurred, followed by a horizontal separator. -/
theorem exportMarkdown_spec (pages : List StoredPage) :
    exportMarkdown pages = specC8AmendedExport pages := by
  rw [exportMarkdown, specC8AmendedExport, funext mdSection_amended]

/-! Part 19: the claim about the tabular (csv) export. -/

/-- Substring search for one character is membership, in boolean form. -/
theorem jsIncludes_singleton (l : List Char) (c : Char) :
    jsIncludes l [c] = decide (c ∈ l) := by
  rw [jsIncludes_eq]
  by_cases h : c ∈ l
  · rw [decide_eq_true h, decide_eq_true ((singleton_infix_iff c l).mpr h)]
  · rw [decide_eq_false h, decide_eq_false (fun hi => h ((singleton_infix_iff c l).mp hi))]

/-- Field quoting refinement: the source escape equals the quoting rule in
the words of the specification. -/
theorem escapeCSV_spec (s : String) : escapeCSV s = specCSVField s := by
  rw [escapeCSV, csvNeedsQuote, specCSVField,
    jsIncludes_singleton, jsIncludes_singleton, jsIncludes_singleton]
  by_cases h1 : ',' ∈ s.data <;> by_cases h2 : '"' ∈ s.data <;>
    by_cases h3 : '\n' ∈ s.data <;> simp [h1, h2, h3]

/-- Row refinement under the platform timestamp bound. -/
theorem csvRow_spec (p : StoredPage) (h : p.timestamp ≤ maxDateMillis) :
    csvRow p = some (specCSVRow p) := by
  rw [csvRow, isoOfMillis, if_pos h]
  simp only [Option.map_some']
  rw [specCSVRow, escapeCSV_spec, escapeCSV_spec]

/-- Row list refinement under the platform timestamp bound. -/
theorem csvRows_spec : ∀ pages : List StoredPage,
    (∀ p ∈ pages, p.timestamp ≤ maxDateMillis) →
    csvRows pages = some (pages.map specCSVRow) := by
  intro pages
  induction pages with
  | nil => intro _; rfl
  | cons p ps ih =>
    intro h
    rw [csvRows, csvRow_spec p (h p (List.mem_cons_self p ps)),
      ih (fun q hq => h q (List.mem_cons_of_mem p hq))]
    rfl

/-- C4: the tabular export emits the header row followed by one row per
page, every field quoted per the standard escape exactly when it contains a
comma, double-quote or newline (with internal double-quotes doubled), and
the timestamp rendered as an ISO-8601 instant; the timestamp bound is the
platform range of toISOString, outside of which the export throws. -/
theorem exportCSV_spec (pages : List StoredPage)
    (h : ∀ p ∈ pages, p.timestamp ≤ maxDateMillis) :
    (∀ s : String, escapeCSV s = specCSVField s) ∧
    exportCSV pages =
      some (csvHeader ++ String.intercalate ("\n") (pages.map specCSVRow)) := by
  refine ⟨escapeCSV_spec, ?_⟩
  rw [exportCSV, csvRows_spec pages h]
  simp only [Option.map_some']

/-- Witness for the tabular export claim at a concrete page with a comma in
its url. -/
theorem exportCSV_spec_witness :
    exportCSV [pageCSV] =
      some (csvHeader ++ String.intercalate ("\n") ([pageCSV].map specCSVRow)) :=
  (exportCSV_spec [pageCSV] (by decide)).2

/-! Part 20: digit lemmas for the structured (json) round trip. -/

theorem digitCh_isDigit : ∀ k, k < 10 → (digitCh k).isDigit = true := by decide

theorem digitCh_val : ∀ k, k < 10 → (digitCh k).toNat - 48 = k := by decide

theorem hexVal_hexDigitCh : ∀ k, k < 16 → hexVal (hexDigitCh k) = some k := by decide

/-- Fuel irrelevance for the digit emitter. -/
theorem natCharsAux_irrel :
    ∀ (n f1 f2 : Nat), n < f1 → n < f2 → natCharsAux f1 n = natCharsAux f2 n := by
  intro n
  induction n using Nat.strong_induction_on with
  | _ n ih =>
    intro f1 f2 h1 h2
    cases f1 with
    | zero => omega
    | succ g1 =>
      cases f2 with
      | zero => omega
      | succ g2 =>
        rw [natCharsAux, natCharsAux]
        by_cases h : n < 10
        · rw [if_pos h, if_pos h]
        · rw [if_neg h, if_neg h]
          have hdiv : n / 10 < n := Nat.div_lt_self (by omega) (by omega)
          have hg1 : n / 10 < g1 := by omega
          have hg2 : n / 10 < g2 := by omega
          rw [ih (n / 10) hdiv g1 g2 hg1 hg2]

/-- Unfolding equation for the digit emitter. -/
theorem natChars_eq (n : Nat) :
    natChars n = if n < 10 then [digitCh n] else natChars (n / 10) ++ [digitCh (n % 10)] := by
  rw [natChars, natCharsAux]
  by_cases h : n < 10
  · rw [if_pos h, if_pos h]
  · rw [if_neg h, if_neg h]
    have hdiv : n / 10 < n := Nat.div_lt_self (by omega) (by omega)
    rw [natChars]
    rw [natCharsAux_irrel (n / 10) n (n / 10 + 1) hdiv (by omega)]

/-- The digit emitter emits a digit first. -/
theorem natChars_head : ∀ n : Nat, ∃ d t, natChars n = d :: t ∧ d.isDigit = true := by
  intro n
  induction n using Nat.strong_induction_on with
  | _ n ih =>
    rw [natChars_eq]
    by_cases h : n < 10
    · rw [if_pos h]
      exact ⟨digitCh n, [], rfl, digitCh_isDigit n h⟩
    · rw [if_neg h]
      obtain ⟨d, t, hd, hdig⟩ := ih (n / 10) (Nat.div_lt_self (by omega) (by omega))
      exact ⟨d, t ++ [digitCh (n % 10)], by rw [hd]; rfl, hdig⟩

/-- Digit accumulation across an emitted number. -/
theorem takeDigits_natChars :
    ∀ (n acc : Nat) (tail : List Char),
      takeDigits (natChars n ++ tail) acc =
        takeDigits tail (acc * 10 ^ (natChars n).length + n) := by
  intro n
  induction n using Nat.strong_induction_on with
  | _ n ih =>
    intro acc tail
    by_cases h : n < 10
    · rw [natChars_eq, if_pos h, List.singleton_append, takeDigits,
        if_pos (digitCh_isDigit n h), digitCh_val n h, List.length_singleton, pow_one]
    · have hdiv : n / 10 < n := Nat.div_lt_self (by omega) (by omega)
      have hmod : n % 10 < 10 := Nat.mod_lt n (by omega)
      rw [natChars_eq, if_neg h, List.append_assoc, List.singleton_append,
        ih (n / 10) hdiv acc (digitCh (n % 10) :: tail), takeDigits,
        if_pos (digitCh_isDigit _ hmod), digitCh_val _ hmod,
        List.length_append, List.length_singleton, pow_succ, ← mul_assoc]
      congr 1
      have hdm := Nat.div_add_mod n 10
      generalize acc * 10 ^ (natChars (n / 10)).length = q
      omega

/-- Reading a number recovers the emitted value and stops at the first
non-digit. -/
theorem readNum_natChars (n : Nat) (c : Char) (rest : List Char) (h : c.isDigit = false) :
    readNum (natChars n ++ c :: rest) = some (n, c :: rest) := by
  obtain ⟨d, t, hd, hdig⟩ := natChars_head n
  rw [hd, List.cons_append, readNum, if_pos hdig, ← List.cons_append, ← hd,
    takeDigits_natChars, takeDigits, if_neg (by simp [h])]
  simp

/-- A digit character is not the string quote. -/
theorem digit_ne_quote (c : Char) (h : c.isDigit = true) : ¬ c = '"' := by
  intro hc
  rw [hc] at h
  exact absurd h (by decide)

/-- A digit character is not whitespace. -/
theorem digit_not_ws (c : Char) (h : c.isDigit = true) : c.isWhitespace = false := by
  by_contra hb
  rw [Bool.not_eq_false] at hb
  have hcs : ((c = ' ' ∨ c = '\t') ∨ c = '\x0d') ∨ c = '\n' := by
    simpa [Char.isWhitespace] using hb
  rcases hcs with ((rfl | rfl) | rfl) | rfl <;> exact absurd h (by decide)

theorem skipWS_ws (c : Char) (l : List Char) (h : c.isWhitespace = true) :
    skipWS (c :: l) = skipWS l := by
  rw [skipWS, if_pos h]

theorem skipWS_not (c : Char) (l : List Char) (h : c.isWhitespace = false) :
    skipWS (c :: l) = c :: l := by
  rw [skipWS, if_neg (by simp [h])]

/-! Part 21: the string escape round trip. -/

/-- Step lemma: a bare closing quote. -/
theorem readStrBody_quote (rest : List Char) :
    readStrBody ('"' :: rest) = some ([], rest) := by
  rw [readStrBody.eq_def]
  dsimp only
  rw [if_pos rfl]

/-- Step lemma: an escaped quote. -/
theorem readStrBody_esc_quote (M : List Char) :
    readStrBody ('\\' :: '"' :: M) = (readStrBody M).map (fun p => ('"' :: p.1, p.2)) := by
  rw [readStrBody.eq_def]
  dsimp only
  rw [if_neg (by decide), if_pos rfl, if_pos rfl]

/-- Step lemma: an escaped backslash. -/
theorem readStrBody_esc_back (M : List Char) :
    readStrBody ('\\' :: '\\' :: M) = (readStrBody M).map (fun p => ('\\' :: p.1, p.2)) := by
  rw [readStrBody.eq_def]
  dsimp only
  rw [if_neg (by decide), if_pos rfl, if_neg (by decide), if_pos rfl]

/-- Step lemma: the backspace escape. -/
theorem readStrBody_esc_b (M : List Char) :
    readStrBody ('\\' :: 'b' :: M) = (readStrBody M).map (fun p => ('\x08' :: p.1, p.2)) := by
  rw [readStrBody.eq_def]
  dsimp only
  rw [if_neg (by decide), if_pos rfl, if_neg (by decide), if_neg (by decide),
    if_neg (by decide), if_pos rfl]

/-- Step lemma: the tab escape. -/
theorem readStrBody_esc_t (M : List Char) :
    readStrBody ('\\' :: 't' :: M) = (readStrBody M).map (fun p => ('\t' :: p.1, p.2)) := by
  rw [readStrBody.eq_def]
  dsimp only
  rw [if_neg (by decide), if_pos rfl, if_neg (by decide), if_neg (by decide),
    if_neg (by decide), if_neg (by decide), if_pos rfl]

/-- Step lemma: the line feed escape. -/
theorem readStrBody_esc_n (M : List Char) :
    readStrBody ('\\' :: 'n' :: M) = (readStrBody M).map (fun p => ('\n' :: p.1, p.2)) := by
  rw [readStrBody.eq_def]
  dsimp only
  rw [if_neg (by decide), if_pos rfl, if_neg (by decide), if_neg (by decide),
    if_neg (by decide), if_neg (by decide), if_neg (by decide), if_pos rfl]

/-- Step lemma: the form feed escape. -/
theorem readStrBody_esc_f (M : List Char) :
    readStrBody ('\\' :: 'f' :: M) = (readStrBody M).map (fun p => ('\x0c' :: p.1, p.2)) := by
  rw [readStrBody.eq_def]
  dsimp only
  rw [if_neg (by decide), if_pos rfl, if_neg (by decide), if_neg (by decide),
    if_neg (by decide), if_neg (by decide), if_neg (by decide), if_neg (by decide),
    if_pos rfl]

/-- Step lemma: the carriage return escape. -/
theorem readStrBody_esc_r (M : List Char) :
    readStrBody ('\\' :: 'r' :: M) = (readStrBody M).map (fun p => ('\x0d' :: p.1, p.2)) := by
  rw [readStrBody.eq_def]
  dsimp only
  rw [if_neg (by decide), if_pos rfl, if_neg (by decide), if_neg (by decide),
    if_neg (by decide), if_neg (by decide), if_neg (by decide), if_neg (by decide),
    if_neg (by decide), if_pos rfl]

/-- Step lemma: a codepoint escape below the surrogate range. -/
theorem readStrBody_esc_u (x1 x2 x3 x4 : Char) (a b c d : Nat) (M : List Char)
    (h1 : hexVal x1 = some a) (h2 : hexVal x2 = some b) (h3 : hexVal x3 = some c)
    (h4 : hexVal x4 = some d) (hlt : ((a * 16 + b) * 16 + c) * 16 + d < 55296) :
    readStrBody ('\\' :: 'u' :: x1 :: x2 :: x3 :: x4 :: M) =
      (readStrBody M).map
        (fun p => (Char.ofNat (((a * 16 + b) * 16 + c) * 16 + d) :: p.1, p.2)) := by
  rw [readStrBody.eq_def]
  dsimp only
  rw [if_neg (by decide), if_pos rfl, if_neg (by decide), if_neg (by decide),
    if_neg (by decide), if_neg (by decide), if_neg (by decide), if_neg (by decide),
    if_neg (by decide), if_neg (by decide), if_pos rfl, h1, h2, h3, h4]
  dsimp only
  rw [if_pos hlt]

/-- Step lemma: a raw character. -/
theorem readStrBody_raw (c : Char) (M : List Char) (h1 : ¬ c = '"') (h2 : ¬ c = '\\') :
    readStrBody (c :: M) = (readStrBody M).map (fun p => (c :: p.1, p.2)) := by
  rw [readStrBody.eq_def]
  dsimp only
  rw [if_neg h1, if_neg h2]

/-- Reading a serialized string body undoes the escape and stops at the
closing quote. -/
theorem readStrBody_escape :
    ∀ (l rest : List Char),
      readStrBody (l.flatMap jsonEscapeChar ++ '"' :: rest) = some (l, rest) := by
  intro l
  induction l with
  | nil =>
    intro rest
    rw [List.flatMap_nil, List.nil_append, readStrBody_quote]
  | cons c cs ih =>
    intro rest
    rw [List.flatMap_cons, List.append_assoc, jsonEscapeChar]
    by_cases h1 : c = '"'
    · subst h1
      rw [if_pos rfl, List.cons_append, List.singleton_append,
        readStrBody_esc_quote, ih rest]
      rfl
    · rw [if_neg h1]
      by_cases h2 : c = '\\'
      · subst h2
        rw [if_pos rfl, List.cons_append, List.singleton_append,
          readStrBody_esc_back, ih rest]
        rfl
      · rw [if_neg h2]
        by_cases h3 : c = '\x08'
        · subst h3
          rw [if_pos rfl, List.cons_append, List.singleton_append,
            readStrBody_esc_b, ih rest]
          rfl
        · rw [if_neg h3]
          by_cases h4 : c = '\t'
          · subst h4
            rw [if_pos rfl, List.cons_append, List.singleton_append,
              readStrBody_esc_t, ih rest]
            rfl
          · rw [if_neg h4]
            by_cases h5 : c = '\n'
            · subst h5
              rw [if_pos rfl, List.cons_append, List.singleton_append,
                readStrBody_esc_n, ih rest]
              rfl
            · rw [if_neg h5]
              by_cases h6 : c = '\x0c'
              · subst h6
                rw [if_pos rfl, List.cons_append, List.singleton_append,
                  readStrBody_esc_f, ih rest]
                rfl
              · rw [if_neg h6]
                by_cases h7 : c = '\x0d'
                · subst h7
                  rw [if_pos rfl, List.cons_append, List.singleton_append,
                    readStrBody_esc_r, ih rest]
                  rfl
                · rw [if_neg h7]
                  by_cases h8 : c.toNat < 32
                  · rw [if_pos h8]
                    rw [show ('\\' :: 'u' :: '0' :: '0' ::
                        hexDigitCh (c.toNat / 16) :: [hexDigitCh (c.toNat % 16)]) ++
                        (cs.flatMap jsonEscapeChar ++ '"' :: rest) =
                        '\\' :: 'u' :: '0' :: '0' :: hexDigitCh (c.toNat / 16) ::
                        hexDigitCh (c.toNat % 16) ::
                        (cs.flatMap jsonEscapeChar ++ '"' :: rest) from rfl]
                    rw [readStrBody_esc_u _ _ _ _ 0 0 (c.toNat / 16) (c.toNat % 16) _
                      (by decide) (by decide)
                      (hexVal_hexDigitCh (c.toNat / 16) (by omega))
                      (hexVal_hexDigitCh (c.toNat % 16) (by omega)) (by omega)]
                    have hn : ((0 * 16 + 0) * 16 + c.toNat / 16) * 16 + c.toNat % 16 =
                        c.toNat := by omega
                    rw [hn, Char.ofNat_toNat, ih rest]
                    rfl
                  · rw [if_neg h8, List.singleton_append,
                      readStrBody_raw c _ h1 h2, ih rest]
                    rfl

/-! Part 22: assembling the structured round trip through members, objects,
the item list and the whole artifact. -/

/-- Reading a serialized string value. -/
theorem readJVal_string (s tail : List Char) :
    readJVal (jsonStringChars s ++ tail) = some (JVal.str s, tail) := by
  have hflat : jsonStringChars s ++ tail =
      '"' :: (s.flatMap jsonEscapeChar ++ '"' :: tail) := by
    simp [jsonStringChars]
  rw [hflat, readJVal.eq_def]
  dsimp only
  rw [if_pos rfl, readStrBody_escape]
  rfl

/-- Reading a serialized number value stops at the first non-digit. -/
theorem readJVal_nat (n : Nat) (c : Char) (rest : List Char) (h : c.isDigit = false) :
    readJVal (natChars n ++ c :: rest) = some (JVal.num n, c :: rest) := by
  obtain ⟨d, t, hd, hdig⟩ := natChars_head n
  rw [hd, List.cons_append, readJVal.eq_def]
  dsimp only
  rw [if_neg (digit_ne_quote d hdig), ← List.cons_append, ← hd, readNum_natChars n c rest h]
  rfl

/-- A serialized string value starts with a non-whitespace character. -/
theorem skipWS_string (s tail : List Char) :
    skipWS (jsonStringChars s ++ tail) = jsonStringChars s ++ tail := by
  have hflat : jsonStringChars s ++ tail =
      '"' :: (s.flatMap jsonEscapeChar ++ '"' :: tail) := by
    simp [jsonStringChars]
  rw [hflat, skipWS_not _ _ (by decide)]

/-- A serialized number starts with a non-whitespace character. -/
theorem skipWS_natChars (n : Nat) (tail : List Char) :
    skipWS (natChars n ++ tail) = natChars n ++ tail := by
  obtain ⟨d, t, hd, hdig⟩ := natChars_head n
  rw [hd, List.cons_append, skipWS_not _ _ (digit_not_ws d hdig), ← List.cons_append, ← hd]

/-- Skipping whitespace over the head of a printed member exposes the key
quote. -/
theorem skipWS_member (k : String) (v tail : List Char) :
    skipWS (jsonMemberChars k v ++ tail) =
      '"' :: (k.data.flatMap jsonEscapeChar ++ '"' :: ':' :: ' ' :: (v ++ tail)) := by
  have hflat : jsonMemberChars k v ++ tail =
      ' ' :: ' ' :: ' ' :: ' ' :: '"' ::
        (k.data.flatMap jsonEscapeChar ++ '"' :: ':' :: ' ' :: (v ++ tail)) := by
    simp [jsonMemberChars, jsonStringChars]
  rw [hflat, skipWS_ws _ _ (by decide), skipWS_ws _ _ (by decide),
    skipWS_ws _ _ (by decide), skipWS_ws _ _ (by decide), skipWS_not _ _ (by decide)]

/-- Reading one printed member. -/
theorem readMember_printed (k : String) (v tail : List Char) (jv : JVal)
    (hv : readJVal (v ++ tail) = some (jv, tail))
    (hw : skipWS (v ++ tail) = v ++ tail) :
    readMember ('\n' :: (jsonMemberChars k v ++ tail)) = some ((k.data, jv), tail) := by
  rw [readMember.eq_def, skipWS_ws _ _ (by decide), skipWS_member]
  dsimp only
  rw [if_pos rfl, readStrBody_escape]
  dsimp only
  rw [skipWS_not _ _ (by decide)]
  dsimp only
  rw [if_pos rfl, skipWS_ws _ _ (by decide), hw, hv]
  rfl

/-- Unfolding step of the member loop. -/
theorem readMembers_step (fuel : Nat) (l : List Char) :
    readMembers (fuel + 1) l =
      match readMember l with
      | none => none
      | some (m, r) =>
        match skipWS r with
        | [] => none
        | c :: r2 =>
          if c = ',' then (readMembers fuel r2).map (fun p => (m :: p.1, p.2))
          else if c = '}' then some ([m], r2)
          else none := rfl

/-- Reading the five printed members of a page object. -/
theorem readMembers_printed (p : StoredPage) (fuel : Nat) (tail : List Char) :
    readMembers (fuel + 5)
      ('\n' :: (jsonMemberChars ("url") (jsonStringChars p.url.data) ++
        ',' :: '\n' :: (jsonMemberChars ("content") (jsonStringChars p.content.data) ++
        ',' :: '\n' :: (jsonMemberChars ("status") (natChars p.status) ++
        ',' :: '\n' :: (jsonMemberChars ("domain") (jsonStringChars p.domain.data) ++
        ',' :: '\n' :: (jsonMemberChars ("timestamp") (natChars p.timestamp) ++
        '\n' :: ' ' :: ' ' :: '}' :: tail)))))) =
      some (objMembers p, tail) := by
  rw [show fuel + 5 = (fuel + 4) + 1 from rfl, readMembers_step,
    readMember_printed ("url") _ _ _ (readJVal_string _ _) (skipWS_string _ _)]
  dsimp only
  rw [skipWS_not _ _ (by decide)]
  dsimp only
  rw [if_pos rfl, show fuel + 4 = (fuel + 3) + 1 from rfl, readMembers_step,
    readMember_printed ("content") _ _ _ (readJVal_string _ _) (skipWS_string _ _)]
  dsimp only
  rw [skipWS_not _ _ (by decide)]
  dsimp only
  rw [if_pos rfl, show fuel + 3 = (fuel + 2) + 1 from rfl, readMembers_step,
    readMember_printed ("status") _ _ _ (readJVal_nat _ _ _ (by decide))
      (skipWS_natChars _ _)]
  dsimp only
  rw [skipWS_not _ _ (by decide)]
  dsimp only
  rw [if_pos rfl, show fuel + 2 = (fuel + 1) + 1 from rfl, readMembers_step,
    readMember_printed ("domain") _ _ _ (readJVal_string _ _) (skipWS_string _ _)]
  dsimp only
  rw [skipWS_not _ _ (by decide)]
  dsimp only
  rw [if_pos rfl, show fuel + 1 = fuel + 1 from rfl, readMembers_step,
    readMember_printed ("timestamp") _ _ _ (readJVal_nat _ _ _ (by decide))
      (skipWS_natChars _ _)]
  dsimp only
  rw [skipWS_ws _ _ (by decide), skipWS_ws _ _ (by decide), skipWS_ws _ _ (by decide),
    skipWS_not _ _ (by decide)]
  dsimp only
  rw [if_neg (by decide), if_pos rfl]
  rfl

/-- The object reader only looks at its input through skipWS. -/
theorem readObj_skip (fuel : Nat) (l₁ l₂ : List Char) (h : skipWS l₁ = skipWS l₂) :
    readObj fuel l₁ = readObj fuel l₂ := by
  rw [readObj.eq_def, readObj.eq_def, h]

/-- Reading one printed page object. -/
theorem readObj_printed (p : StoredPage) (fuel : Nat) (tail : List Char) :
    readObj (fuel + 5) (' ' :: ' ' :: (jsonPageChars p ++ tail)) =
      some (objMembers p, tail) := by
  have hflat : ' ' :: ' ' :: (jsonPageChars p ++ tail) =
      ' ' :: ' ' :: '{' :: '\n' ::
        (jsonMemberChars ("url") (jsonStringChars p.url.data) ++
          ',' :: '\n' :: (jsonMemberChars ("content") (jsonStringChars p.content.data) ++
          ',' :: '\n' :: (jsonMemberChars ("status") (natChars p.status) ++
          ',' :: '\n' :: (jsonMemberChars ("domain") (jsonStringChars p.domain.data) ++
          ',' :: '\n' :: (jsonMemberChars ("timestamp") (natChars p.timestamp) ++
          '\n' :: ' ' :: ' ' :: '}' :: tail))))) := by
    simp [jsonPageChars]
  rw [hflat, readObj.eq_def, skipWS_ws _ _ (by decide), skipWS_ws _ _ (by decide),
    skipWS_not _ _ (by decide)]
  dsimp only
  rw [if_pos rfl, skipWS_ws _ _ (by decide), skipWS_member]
  dsimp only
  rw [if_neg (by decide)]
  exact readMembers_printed p fuel tail

/-- Unfolding step of the item loop. -/
theorem readItems_step (fuel : Nat) (l : List Char) :
    readItems (fuel + 1) l =
      match readObj fuel l with
      | none => none
      | some (o, r) =>
        match skipWS r with
        | [] => none
        | c :: r2 =>
          if c = ',' then (readItems fuel r2).map (fun p => (o :: p.1, p.2))
          else if c = ']' then some ([o], r2)
          else none := rfl

/-- Reading the printed item list of a non-empty page sequence. -/
theorem readItems_printed :
    ∀ (ps : List StoredPage) (p : StoredPage) (fuel : Nat), ps.length + 6 ≤ fuel →
      readItems fuel
        ('\n' :: (joinComma ((p :: ps).map (fun q => ' ' :: ' ' :: jsonPageChars q)) ++
          '\n' :: ']' :: ([] : List Char))) =
        some ((p :: ps).map objMembers, []) := by
  intro ps
  induction ps with
  | nil =>
    intro p fuel hf
    obtain ⟨f, rfl⟩ : ∃ f, fuel = f + 6 := ⟨fuel - 6, by omega⟩
    rw [List.map_cons, List.map_nil,
      show joinComma [' ' :: ' ' :: jsonPageChars p] = ' ' :: ' ' :: jsonPageChars p from rfl,
      show f + 6 = (f + 5) + 1 from rfl, readItems_step]
    have hobj : readObj (f + 5)
        ('\n' :: ((' ' :: ' ' :: jsonPageChars p) ++ '\n' :: ']' :: ([] : List Char))) =
        some (objMembers p, '\n' :: ']' :: []) := by
      rw [readObj_skip (f + 5) _ _ (skipWS_ws '\n' _ (by decide)),
        List.cons_append, List.cons_append]
      exact readObj_printed p f ('\n' :: ']' :: [])
    rw [hobj]
    dsimp only
    rw [skipWS_ws _ _ (by decide), skipWS_not _ _ (by decide)]
    dsimp only
    rw [if_neg (by decide), if_pos rfl]
    rfl
  | cons q qs ih =>
    intro p fuel hf
    obtain ⟨g, rfl⟩ : ∃ g, fuel = (g + 5) + 1 := ⟨fuel - 6, by omega⟩
    rw [List.map_cons, List.map_cons,
      show joinComma ((' ' :: ' ' :: jsonPageChars p) ::
          (' ' :: ' ' :: jsonPageChars q) :: qs.map (fun r => ' ' :: ' ' :: jsonPageChars r)) =
        (' ' :: ' ' :: jsonPageChars p) ++ ',' :: '\n' ::
          joinComma ((' ' :: ' ' :: jsonPageChars q) ::
            qs.map (fun r => ' ' :: ' ' :: jsonPageChars r)) from rfl,
      readItems_step]
    simp only [List.cons_append, List.append_assoc]
    have hobj : readObj (g + 5)
        ('\n' :: ' ' :: ' ' :: (jsonPageChars p ++
          ',' :: '\n' :: (joinComma ((' ' :: ' ' :: jsonPageChars q) ::
            qs.map (fun r => ' ' :: ' ' :: jsonPageChars r)) ++
            '\n' :: ']' :: ([] : List Char)))) =
        some (objMembers p,
          ',' :: '\n' :: (joinComma ((' ' :: ' ' :: jsonPageChars q) ::
            qs.map (fun r => ' ' :: ' ' :: jsonPageChars r)) ++
            '\n' :: ']' :: ([] : List Char))) := by
      rw [readObj_skip (g + 5) _
        (' ' :: ' ' :: (jsonPageChars p ++
          ',' :: '\n' :: (joinComma ((' ' :: ' ' :: jsonPageChars q) ::
            qs.map (fun r => ' ' :: ' ' :: jsonPageChars r)) ++
            '\n' :: ']' :: ([] : List Char))))
        (skipWS_ws '\n' _ (by decide))]
      exact readObj_printed p g _
    rw [hobj]
    dsimp only
    rw [skipWS_not _ _ (by decide)]
    dsimp only
    rw [if_pos rfl]
    have hrec := ih q (g + 5) (by simp at hf ⊢; omega)
    rw [List.map_cons] at hrec
    rw [hrec]
    rfl

/-- Crude length bound for one printed page object. -/
theorem jsonPageChars_len (p : StoredPage) : 10 ≤ (jsonPageChars p).length := by
  simp [jsonPageChars, jsonMemberChars, jsonStringChars]
  omega

/-- Crude length bound for the joined item list. -/
theorem joinComma_len :
    ∀ xs : List (List Char), (∀ x ∈ xs, 10 ≤ x.length) →
      10 * xs.length ≤ (joinComma xs).length := by
  intro xs
  induction xs with
  | nil => intro _; simp [joinComma]
  | cons x ys ih =>
    intro h
    cases ys with
    | nil =>
      have hx := h x (List.mem_cons_self x [])
      simp only [show joinComma [x] = x from rfl, List.length_cons, List.length_nil]
      omega
    | cons y zs =>
      have hx := h x (List.mem_cons_self x (y :: zs))
      have hz := ih (fun z hz => h z (List.mem_cons_of_mem x hz))
      rw [show joinComma (x :: y :: zs) = x ++ ',' :: '\n' :: joinComma (y :: zs) from rfl]
      simp only [List.length_append, List.length_cons] at hz ⊢
      omega

/-- Crude length bound for the whole artifact. -/
theorem exportJSONChars_len (p : StoredPage) (ps : List StoredPage) :
    ps.length + 5 ≤ (exportJSONChars (p :: ps)).length := by
  have hml : ∀ x ∈ (p :: ps).map (fun q => ' ' :: ' ' :: jsonPageChars q), 10 ≤ x.length := by
    intro x hx
    obtain ⟨q, _, rfl⟩ := List.mem_map.mp hx
    have h10 := jsonPageChars_len q
    simp only [List.length_cons]
    omega
  have hj := joinComma_len _ hml
  have hflat : exportJSONChars (p :: ps) =
      '[' :: '\n' :: (joinComma ((p :: ps).map (fun q => ' ' :: ' ' :: jsonPageChars q)) ++
        '\n' :: ']' :: ([] : List Char)) := by
    simp [exportJSONChars]
  rw [hflat]
  simp only [List.length_cons, List.length_append, List.length_map] at hj ⊢
  omega

/-- Skipping whitespace at the head of a printed item exposes the brace. -/
theorem skipWS_item_head (p : StoredPage) (Y : List Char) :
    ∃ X, skipWS ('\n' :: ((' ' :: ' ' :: jsonPageChars p) ++ Y)) = '{' :: X := by
  obtain ⟨Z, hZ⟩ : ∃ Z, jsonPageChars p = '{' :: Z := ⟨_, rfl⟩
  rw [List.cons_append, List.cons_append, hZ, List.cons_append,
    skipWS_ws _ _ (by decide), skipWS_ws _ _ (by decide), skipWS_ws _ _ (by decide),
    skipWS_not _ _ (by decide)]
  exact ⟨Z ++ Y, rfl⟩

/-- Skipping whitespace at the head of the printed item list exposes the
brace of the first object. -/
theorem skipWS_items_head (p : StoredPage) (ps : List StoredPage) (E : List Char) :
    ∃ X, skipWS ('\n' ::
        (joinComma ((p :: ps).map (fun q => ' ' :: ' ' :: jsonPageChars q)) ++ E)) =
      '{' :: X := by
  cases ps with
  | nil =>
    rw [List.map_cons, List.map_nil,
      show joinComma [' ' :: ' ' :: jsonPageChars p] = ' ' :: ' ' :: jsonPageChars p from rfl]
    exact skipWS_item_head p E
  | cons q qs =>
    rw [List.map_cons, List.map_cons,
      show joinComma ((' ' :: ' ' :: jsonPageChars p) ::
          (' ' :: ' ' :: jsonPageChars q) :: qs.map (fun r => ' ' :: ' ' :: jsonPageChars r)) =
        (' ' :: ' ' :: jsonPageChars p) ++ ',' :: '\n' ::
          joinComma ((' ' :: ' ' :: jsonPageChars q) ::
            qs.map (fun r => ' ' :: ' ' :: jsonPageChars r)) from rfl,
      List.append_assoc]
    exact skipWS_item_head p _

/-- Reading a whole printed artifact of a non-empty page sequence. -/
theorem readTop_printed (p : StoredPage) (ps : List StoredPage) :
    readTop (exportJSONChars (p :: ps)) = some ((p :: ps).map objMembers) := by
  have hflat : exportJSONChars (p :: ps) =
      '[' :: '\n' :: (joinComma ((p :: ps).map (fun q => ' ' :: ' ' :: jsonPageChars q)) ++
        '\n' :: ']' :: ([] : List Char)) := by
    simp [exportJSONChars]
  have hlen : ps.length + 6 ≤ (exportJSONChars (p :: ps)).length + 1 := by
    have := exportJSONChars_len p ps
    omega
  rw [hflat] at hlen
  rw [hflat, readTop.eq_def, skipWS_not _ _ (by decide)]
  dsimp only
  rw [if_pos rfl]
  obtain ⟨X, hX⟩ := skipWS_items_head p ps ('\n' :: ']' :: ([] : List Char))
  rw [hX]
  dsimp only
  rw [if_neg (by decide), readItems_printed ps p _ hlen]
  dsimp only
  rw [show skipWS ([] : List Char) = [] from rfl, if_pos rfl]

/-- Recovering the record of one page from its parsed object. -/
theorem toRecord_objMembers (p : StoredPage) :
    toRecord (objMembers p) = some (pageRecordOf p) := by
  simp +decide [toRecord, memberStr, memberNum, objMembers, pageRecordOf, List.lookup]

/-- Recovering all records. -/
theorem recordsOf_map :
    ∀ ps : List StoredPage, recordsOf (ps.map objMembers) = some (ps.map pageRecordOf) := by
  intro ps
  induction ps with
  | nil => rfl
  | cons p t ih =>
    rw [List.map_cons,
      show recordsOf (objMembers p :: t.map objMembers) =
        match toRecord (objMembers p), recordsOf (t.map objMembers) with
        | some r, some rs => some (r :: rs)
        | _, _ => none from rfl,
      toRecord_objMembers, ih]
    rfl

/-- C5: parsing the emitted structured artifact back recovers url, content,
status, domain and timestamp of every input page unchanged and in order; the
artifact is the two-space-indented array of five-field objects in the fixed
field order of the source, as laid down by the exportJSON embedding. -/
theorem exportJSON_roundtrip (pages : List StoredPage) :
    parseExport (exportJSON pages) = some (pages.map pageRecordOf) := by
  cases pages with
  | nil => rfl
  | cons p ps =>
    rw [parseExport.eq_def,
      show (exportJSON (p :: ps)).data = exportJSONChars (p :: ps) from rfl,
      readTop_printed p ps]
    exact recordsOf_map (p :: ps)

end SpiderKB
